import Mathlib

/-!
Verification of the Planday GRPO reward engine.

This file embeds, as Lean definitions, the reward functions of
`grpo for planday/.ipynb_checkpoints/train_grpo-checkpoint.ipynb`:
`time_to_minutes`, the event-extraction regex (`capture_pattern` /
`get_events`), the overall format regex (`overall_pattern` used by
`format_reward`), `score_reward` and `sorted_events_reward`, and proves
properties of them.

Python strings are embedded as `List Char`.  Python floats produced by
`score / opt_score * 70` are embedded as exact rationals (`ℚ`).
Python ints are embedded as `ℤ` (the minute arithmetic can go negative on
adversarial inputs, e.g. an extracted event whose end time string denotes
an earlier minute than its start).
-/

namespace Planday

/-! ## Time model -/

/-- Character class of the regex `\d`.  Python's `re` on `str` would also
accept non-ASCII Unicode decimal digits; the training data and all fixture
texts are ASCII, and we model `\d` as the ASCII digits `0`..`9`. -/
def isDigitC (c : Char) : Bool := decide (48 ≤ c.toNat) && decide (c.toNat ≤ 57)

/-- Character class of the regex `\s`, modelled as the ASCII whitespace
characters space, tab, newline, carriage return, form feed and vertical
tab (Python's default also includes non-ASCII whitespace, which does not
occur in the data). -/
def isWsC (c : Char) : Bool :=
  decide (c.toNat = 32) || decide (c.toNat = 9) || decide (c.toNat = 10) ||
  decide (c.toNat = 13) || decide (c.toNat = 12) || decide (c.toNat = 11)

/-- Value of a decimal digit string, as computed by Python's `int`.
Python's `int` raises on a string that is not an optionally signed decimal
numeral; in the scorer it is only ever applied to the two-digit groups
captured by `\d{2}`, on which this function agrees with it. -/
def digitsVal (l : List Char) : ℕ := l.foldl (fun n c => 10 * n + (c.toNat - 48)) 0

/-- Embedding of Python's `time_str.split(":")`. -/
def splitCol : List Char → List (List Char)
  | [] => [[]]
  | c :: rest =>
    if c = ':' then [] :: splitCol rest
    else
      match splitCol rest with
      | [] => [[c]]
      | g :: gs => (c :: g) :: gs

/-- Embedding of the notebook's `time_to_minutes`:
`hours, mins = map(int, time_str.split(":")); return hours * 60 + mins`.
Python raises on input that does not split into exactly two numerals; the
scorer only applies it to strings captured by `\d{2}:\d{2}`, where the
split yields exactly two digit groups.  The catch-all branch returns 0
purely for totality and is never reached from the scorer. -/
def time_to_minutes (s : List Char) : ℤ :=
  match splitCol s with
  | [h, m] => (digitsVal h : ℤ) * 60 + (digitsVal m : ℤ)
  | _ => 0

/-! ## Interval extractor (`capture_pattern` / `get_events`)

The capture regex is
`<event>\s*<name>([^<]+)</name>\s*<start>(\d{2}:\d{2})</start>\s*` ...
`<end>(\d{2}:\d{2})</end>\s*</event>`.
Every quantified subpattern in it is followed by a literal that is
excluded from the repeated class (`\s*` is followed by `<`, which is not
whitespace; `[^<]+` is followed by `<`; `\d{2}` groups are fixed length),
so Python's backtracking matcher is equivalent to the deterministic
greedy scanner below, and `finditer` is equivalent to attempting the
scanner at each position from the left and resuming after each match. -/

/-- An extracted event: `(name, start_time_string, end_time_string)`. -/
abbrev EvS := List Char × List Char × List Char

/-- An event after minute conversion: `(name, start_minutes, end_minutes)`. -/
abbrev EvM := List Char × ℤ × ℤ

/-- Match a literal, returning the remainder of the input. -/
def dropLit : List Char → List Char → Option (List Char)
  | [], s => some s
  | _ :: _, [] => none
  | c :: cs, x :: xs => if x = c then dropLit cs xs else none

/-- Match the group `(\d{2}:\d{2})`, returning the captured five
characters and the remainder. -/
def takeTime : List Char → Option (List Char × List Char)
  | d1 :: d2 :: c :: d3 :: d4 :: rest =>
    if isDigitC d1 && isDigitC d2 && decide (c = ':') && isDigitC d3 && isDigitC d4
    then some ([d1, d2, c, d3, d4], rest)
    else none
  | _ => none

/-- Attempt to match one event block of `capture_pattern` at the start of
the input; on success return the captured `(name, start, end)` triple and
the remainder of the input after the match. -/
def tryEvent (s : List Char) : Option (EvS × List Char) :=
  match dropLit "<event>".data s with
  | none => none
  | some s1 =>
    match dropLit "<name>".data (s1.dropWhile isWsC) with
    | none => none
    | some s3 =>
      let nm := s3.takeWhile (fun c => !decide (c = '<'))
      let s4 := s3.dropWhile (fun c => !decide (c = '<'))
      if nm.isEmpty then none
      else
        match dropLit "</name>".data s4 with
        | none => none
        | some s5 =>
          match dropLit "<start>".data (s5.dropWhile isWsC) with
          | none => none
          | some s7 =>
            match takeTime s7 with
            | none => none
            | some (t1, s8) =>
              match dropLit "</start>".data s8 with
              | none => none
              | some s9 =>
                match dropLit "<end>".data (s9.dropWhile isWsC) with
                | none => none
                | some s11 =>
                  match takeTime s11 with
                  | none => none
                  | some (t2, s12) =>
                    match dropLit "</end>".data s12 with
                    | none => none
                    | some s13 =>
                      match dropLit "</event>".data (s13.dropWhile isWsC) with
                      | none => none
                      | some s15 => some ((nm, t1, t2), s15)

/-- Left-to-right scan of `capture_regex.finditer`: at each position try to
match an event block; after a match resume at its end, otherwise advance
one character.  `fuel` bounds the recursion; each step consumes at least
one character, so `length + 1` fuel always suffices. -/
def scanEvents : ℕ → List Char → List EvS
  | 0, _ => []
  | fuel + 1, s =>
    match tryEvent s with
    | some (t, rest) => t :: scanEvents fuel rest
    | none =>
      match s with
      | [] => []
      | _ :: tail => scanEvents fuel tail

/-- Embedding of the notebook's `get_events`: the list of
`(name, start, end)` captures of `capture_regex.finditer`, in order of
appearance. -/
def get_events (s : List Char) : List EvS := scanEvents (s.length + 1) s

/-! ## Candidate scorer (`score_reward`) -/

/-- Minute conversion of one extracted event, as in
`(ev[0], time_to_minutes(ev[1]), time_to_minutes(ev[2]))`. -/
def toMin (ev : EvS) : EvM := (ev.1, time_to_minutes ev.2.1, time_to_minutes ev.2.2)

/-- The overlap test of the elimination loop, literally
`ev_j[1] <= ev_k[2] and ev_j[2] >= ev_k[1]`.  Note the non-strict
inequalities: intervals that merely touch at an endpoint satisfy it. -/
def closedConfB (a b : EvM) : Bool := decide (a.2.1 ≤ b.2.2) && decide (a.2.2 ≥ b.2.1)

/-- The conflict relation of the specification: intervals intersect with
positive measure (`a.start < b.end` and `b.start < a.end`). -/
def strictConf (a b : EvM) : Prop := a.2.1 < b.2.2 ∧ b.2.1 < a.2.2

instance (a b : EvM) : Decidable (strictConf a b) := by
  unfold strictConf; infer_instance

/-- Value-level contents of the notebook's `overlapping_events` set: the
double loop `for j ... for k in range(j+1, ...)` inserts both members of
every pair satisfying the overlap test.  The outer loop is the recursion,
the inner loop the filter over the remainder of the list. -/
def overlapping : List EvM → List EvM
  | [] => []
  | a :: rest =>
    ((rest.filter (fun b => closedConfB a b)).map (fun b => [a, b])).flatten
      ++ overlapping rest

/-- The notebook's `existing_events` set
`{ev for ev in scheduled_events if [ev[0], ev[1], ev[2]] in valid_events}`:
the distinct extracted events that occur in the reference list.  A Python
set is iterated in an unspecified order; we fix the order given by
`List.dedup`, which is sound because every later use (length, membership
filtering, symmetric pair elimination and summation) is independent of
the order. -/
def existing_events (scheduled valid : List EvS) : List EvS :=
  (scheduled.filter (fun ev => decide (ev ∈ valid))).dedup

/-- The notebook's `existing_events_minutes` list. -/
def existing_events_minutes (scheduled valid : List EvS) : List EvM :=
  (existing_events scheduled valid).map toMin

/-- The events surviving overlap elimination:
`[ev for ev in existing_events_minutes if ev not in overlapping_events]`. -/
def surviving (scheduled valid : List EvS) : List EvM :=
  (existing_events_minutes scheduled valid).filter
    (fun ev => !decide (ev ∈ overlapping (existing_events_minutes scheduled valid)))

/-- The weight of one surviving event,
`2 * (ev[2] - ev[1]) if ev[0] in priorities else ev[2] - ev[1]`. -/
def weight (priorities : List (List Char)) (ev : EvM) : ℤ :=
  if ev.1 ∈ priorities then 2 * (ev.2.2 - ev.2.1) else ev.2.2 - ev.2.1

/-- The notebook's `score` variable: total weight of the surviving events. -/
def candidate_weighted_score
    (scheduled valid : List EvS) (priorities : List (List Char)) : ℤ :=
  ((surviving scheduled valid).map (weight priorities)).sum

/-- One iteration of the scoring loop of `score_reward`, starting from the
already-extracted event list: `0.0` when the candidate used a nonexistent
event or fewer than 2 valid events remain, else `(score / opt_score) * 70`. -/
def scoreFromEvents
    (scheduled valid : List EvS) (priorities : List (List Char)) (opt : ℤ) : ℚ :=
  if (existing_events scheduled valid).length < scheduled.length
      ∨ (existing_events scheduled valid).length < 2 then 0
  else ((candidate_weighted_score scheduled valid priorities : ℚ) / (opt : ℚ)) * 70

/-- The notebook's `score_reward` for one completion `content` with dataset
columns `valid_events`, `priorities` and `opt_score`. -/
def score_reward
    (content : List Char) (valid : List EvS) (priorities : List (List Char))
    (opt : ℤ) : ℚ :=
  scoreFromEvents (get_events content) valid priorities opt

/-! ## Sorted-events reward -/

/-- The chronological check
`all(m[i][1] < m[i+1][1] for i in range(len(m) - 1))`. -/
def sortedB : List EvM → Bool
  | [] => true
  | [_] => true
  | a :: b :: rest => decide (a.2.1 < b.2.1) && sortedB (b :: rest)

/-- The notebook's `sorted_events_reward` for one completion. -/
def sorted_events_reward (content : List Char) : ℚ :=
  if (get_events content).length < 2 then 0
  else if sortedB ((get_events content).map toMin) then 20 else 0

/-! ## The optimum of the specification

The dynamic-programming optimizer that produced the dataset's
`optimal_score` column lives in `dataset_generation/`, which is not part
of the sources; the specification describes it as classic weighted
interval scheduling. -/

/-- Modelled from the spec: the dataset-generation DP (`optimal_score`) is
not among the sources; per the spec it computes "the maximum total
weighted duration achievable by any conflict-free subset" of the
reference events, where two events conflict iff their intervals intersect
with positive measure.  We define that maximum by exhaustive search over
all sublists of the reference list. -/
def trueMax (valid : List EvS) (priorities : List (List Char)) : ℤ :=
  ((valid.sublists.filter
      (fun l => decide (l.Pairwise (fun a b => ¬ strictConf (toMin a) (toMin b))))).map
    (fun l => ((l.map (fun ev => weight priorities (toMin ev))).sum))).foldr max 0

/-! ## Grammar validator (`overall_pattern` / `format_reward`)

The format check is `overall_regex.match(response)` with
`overall_pattern = "<think>.+</think>.*<schedule>.*(<event>.*<name>.+`
`</name>.*<start>\d{2}:\d{2}</start>.*<end>\d{2}:\d{2}</end>.*</event>)+`
`.*</schedule>"` compiled with `re.DOTALL`.  We embed the regex by its
standard language semantics, built from Mathlib's `Language`
concatenation and Kleene star; under `DOTALL` the dot matches every
character, so `.*` denotes the full language and `.+` the nonempty
strings.  `X+` denotes `X * X∗`.  `re.match` anchors at the start only,
so the Python check succeeds iff some prefix of the response lies in the
denoted language. -/

/-- Language of a single literal string. -/
def litL (t : List Char) : Language Char := {t}

/-- Language of `.*` under `DOTALL`: every string. -/
def anyStar : Language Char := Set.univ

/-- Language of `.+` under `DOTALL`: every nonempty string. -/
def anyPlus : Language Char := {w | w ≠ []}

/-- Language of `\d`: one digit character. -/
def digitL : Language Char := {w | ∃ c, w = [c] ∧ isDigitC c = true}

/-- Language of `\d{2}:\d{2}`. -/
def timeL : Language Char := digitL * (digitL * (litL [':'] * (digitL * digitL)))

/-- Language of the parenthesized event-block group of `overall_pattern`. -/
def eventBlockL : Language Char :=
  litL "<event>".data * (anyStar * (litL "<name>".data * (anyPlus *
    (litL "</name>".data * (anyStar * (litL "<start>".data * (timeL *
    (litL "</start>".data * (anyStar * (litL "<end>".data * (timeL *
    (litL "</end>".data * (anyStar * litL "</event>".data)))))))))))))

/-- Language denoted by the whole of `overall_pattern`. -/
def overallLang : Language Char :=
  litL "<think>".data * (anyPlus * (litL "</think>".data * (anyStar *
    (litL "<schedule>".data * (anyStar * (eventBlockL * (KStar.kstar eventBlockL *
    (anyStar * litL "</schedule>".data))))))))

/-- Embedding of `overall_regex.match(response)` being truthy: some prefix
of the text lies in the language of `overall_pattern`. -/
def format_valid (s : List Char) : Prop := ∃ p q, p ++ q = s ∧ p ∈ overallLang

/-- Shape of a string matched by `\d{2}:\d{2}`. -/
def TimePatP (t : List Char) : Prop :=
  ∃ d1 d2 d3 d4, isDigitC d1 = true ∧ isDigitC d2 = true ∧ isDigitC d3 = true ∧
    isDigitC d4 = true ∧ t = [d1, d2, ':', d3, d4]

/-- Shape of a string matched by the event-block group of
`overall_pattern`: the five tags in order with a nonempty name and two
two-digit times, with arbitrary filler between consecutive tags. -/
def EventBlockP (b : List Char) : Prop :=
  ∃ g1 nm g2 t1 g3 t2 g4, nm ≠ [] ∧ TimePatP t1 ∧ TimePatP t2 ∧
    b = "<event>".data ++ (g1 ++ ("<name>".data ++ (nm ++ ("</name>".data ++
      (g2 ++ ("<start>".data ++ (t1 ++ ("</start>".data ++
      (g3 ++ ("<end>".data ++ (t2 ++ ("</end>".data ++
      (g4 ++ "</event>".data)))))))))))))

/-! ## Concrete instances used by the theorems

`fixA` .. `fixE` are the reference events of the documented fixture
(`optimal_score = 285`); the other definitions are concrete inputs used
by counterexamples and witnesses. -/

def fixA : EvS := ("A".data, "01:06".data, "01:21".data)
def fixB : EvS := ("B".data, "14:57".data, "15:27".data)
def fixC : EvS := ("C".data, "16:21".data, "17:51".data)
def fixD : EvS := ("D".data, "08:48".data, "10:48".data)
def fixE : EvS := ("E".data, "14:31".data, "15:31".data)

/-- The fixture reference set. -/
def fixRef : List EvS := [fixA, fixB, fixC, fixD, fixE]

/-- The fixture priority set: only event `B` is prioritized. -/
def fixPrio : List (List Char) := ["B".data]

/-- Touching events of the claimed touching-boundary property:
`A(10:00-11:00)` and `B(11:00-12:00)`. -/
def touchA : EvS := ("A".data, "10:00".data, "11:00".data)

def touchB : EvS := ("B".data, "11:00".data, "12:00".data)

/-- Reference events for the monotonicity counterexample. -/
def monoA : EvS := ("A".data, "01:00".data, "02:00".data)

def monoB : EvS := ("B".data, "03:00".data, "04:00".data)

def monoC : EvS := ("C".data, "02:00".data, "03:00".data)

def monoD : EvS := ("D".data, "05:00".data, "06:00".data)

def monoRef : List EvS := [monoA, monoB, monoC, monoD]

/-- Scenario 2 text: malformed candidate missing the closing schedule tag,
with two extractable well-formed event blocks around one malformed block
(its start time `9:99` does not match `\d{2}:\d{2}`). -/
def scen2 : List Char :=
  ("<think>pick A and C</think><schedule>" ++
   "<event><name>A</name><start>01:00</start><end>02:00</end></event>" ++
   "<event><name>B</name><start>9:99</start></event>" ++
   "<event><name>C</name><start>03:00</start><end>04:00</end></event>").data

/-- Reference events for Scenario 2. -/
def scen2Ref : List EvS :=
  [("A".data, "01:00".data, "02:00".data), ("C".data, "03:00".data, "04:00".data)]

/-- A format-valid candidate text, used as witness input. -/
def wit4 : List Char :=
  ("<think>x</think><schedule>" ++
   "<event><name>A</name><start>01:00</start><end>02:00</end></event>" ++
   "</schedule>").data

/-- The event block inside `wit4`. -/
def wit4Block : List Char :=
  "<event><name>A</name><start>01:00</start><end>02:00</end></event>".data

/-- An event block whose times are outside the 00-23 / 00-59 ranges. -/
def badTimeBlock : List Char :=
  "<event><name>A</name><start>25:61</start><end>26:00</end></event>".data

/-! ### Language helper lemmas -/

lemma append_mem_mul {L1 L2 : Language Char} {a b : List Char}
    (ha : a ∈ L1) (hb : b ∈ L2) : a ++ b ∈ L1 * L2 :=
  Language.mem_mul.2 ⟨a, ha, b, hb, rfl⟩

lemma mem_litL {t : List Char} : t ∈ litL t := rfl

lemma eq_of_mem_litL {a t : List Char} (h : a ∈ litL t) : a = t := h

lemma digitL_elim {a : List Char} (h : a ∈ digitL) :
    ∃ c, a = [c] ∧ isDigitC c = true := h

lemma digitL_intro {c : Char} (h : isDigitC c = true) : [c] ∈ digitL := ⟨c, rfl, h⟩

lemma anyPlus_elim {a : List Char} (h : a ∈ anyPlus) : a ≠ [] := h

lemma anyPlus_intro {a : List Char} (h : a ≠ []) : a ∈ anyPlus := h

lemma timeL_sound {w : List Char} (h : w ∈ timeL) : TimePatP w := by
  obtain ⟨a1, h1, r1, hr1, rfl⟩ := Language.mem_mul.1 h
  obtain ⟨d1, rfl, hd1⟩ := digitL_elim h1
  obtain ⟨a2, h2, r2, hr2, rfl⟩ := Language.mem_mul.1 hr1
  obtain ⟨d2, rfl, hd2⟩ := digitL_elim h2
  obtain ⟨a3, ha3, r3, hr3, rfl⟩ := Language.mem_mul.1 hr2
  obtain ⟨a4, h3, r4, h4, rfl⟩ := Language.mem_mul.1 hr3
  obtain ⟨d3, rfl, hd3⟩ := digitL_elim h3
  obtain ⟨d4, rfl, hd4⟩ := digitL_elim h4
  rw [eq_of_mem_litL ha3]
  exact ⟨d1, d2, d3, d4, hd1, hd2, hd3, hd4, rfl⟩

lemma timeL_intro {t : List Char} (h : TimePatP t) : t ∈ timeL := by
  obtain ⟨d1, d2, d3, d4, h1, h2, h3, h4, rfl⟩ := h
  exact append_mem_mul (digitL_intro h1) (append_mem_mul (digitL_intro h2)
    (append_mem_mul mem_litL (append_mem_mul (digitL_intro h3) (digitL_intro h4))))

lemma eventBlockL_sound {b : List Char} (h : b ∈ eventBlockL) : EventBlockP b := by
  obtain ⟨a1, ha1, r1, hr1, rfl⟩ := Language.mem_mul.1 h
  obtain ⟨g1, -, r2, hr2, rfl⟩ := Language.mem_mul.1 hr1
  obtain ⟨a2, ha2, r3, hr3, rfl⟩ := Language.mem_mul.1 hr2
  obtain ⟨nm, hnm, r4, hr4, rfl⟩ := Language.mem_mul.1 hr3
  obtain ⟨a3, ha3, r5, hr5, rfl⟩ := Language.mem_mul.1 hr4
  obtain ⟨g2, -, r6, hr6, rfl⟩ := Language.mem_mul.1 hr5
  obtain ⟨a4, ha4, r7, hr7, rfl⟩ := Language.mem_mul.1 hr6
  obtain ⟨t1, ht1, r8, hr8, rfl⟩ := Language.mem_mul.1 hr7
  obtain ⟨a5, ha5, r9, hr9, rfl⟩ := Language.mem_mul.1 hr8
  obtain ⟨g3, -, r10, hr10, rfl⟩ := Language.mem_mul.1 hr9
  obtain ⟨a6, ha6, r11, hr11, rfl⟩ := Language.mem_mul.1 hr10
  obtain ⟨t2, ht2, r12, hr12, rfl⟩ := Language.mem_mul.1 hr11
  obtain ⟨a7, ha7, r13, hr13, rfl⟩ := Language.mem_mul.1 hr12
  obtain ⟨g4, -, a8, ha8, rfl⟩ := Language.mem_mul.1 hr13
  rw [eq_of_mem_litL ha1, eq_of_mem_litL ha2, eq_of_mem_litL ha3,
    eq_of_mem_litL ha4, eq_of_mem_litL ha5, eq_of_mem_litL ha6,
    eq_of_mem_litL ha7, eq_of_mem_litL ha8]
  exact ⟨g1, nm, g2, t1, g3, t2, g4, anyPlus_elim hnm,
    timeL_sound ht1, timeL_sound ht2, rfl⟩

lemma eventBlockL_intro {b : List Char} (h : EventBlockP b) : b ∈ eventBlockL := by
  obtain ⟨g1, nm, g2, t1, g3, t2, g4, hnm, ht1, ht2, rfl⟩ := h
  exact append_mem_mul mem_litL (append_mem_mul (Set.mem_univ g1)
    (append_mem_mul mem_litL (append_mem_mul (anyPlus_intro hnm)
    (append_mem_mul mem_litL (append_mem_mul (Set.mem_univ g2)
    (append_mem_mul mem_litL (append_mem_mul (timeL_intro ht1)
    (append_mem_mul mem_litL (append_mem_mul (Set.mem_univ g3)
    (append_mem_mul mem_litL (append_mem_mul (timeL_intro ht2)
    (append_mem_mul mem_litL (append_mem_mul (Set.mem_univ g4) mem_litL)))))))))))))

/-- Structural content of a successful format match: the matched text
decomposes into a nonempty think section, a schedule section and one or
more well-formed event blocks, in order. -/
lemma format_valid_structure {s : List Char} (h : format_valid s) :
    ∃ tb g1 g2 bs g3 rest, tb ≠ [] ∧ bs ≠ [] ∧ (∀ b ∈ bs, EventBlockP b) ∧
      s = "<think>".data ++ (tb ++ ("</think>".data ++ (g1 ++ ("<schedule>".data ++
        (g2 ++ (List.flatten bs ++ (g3 ++ ("</schedule>".data ++ rest)))))))) := by
  obtain ⟨p, q, rfl, hp⟩ := h
  obtain ⟨a1, ha1, r1, hr1, rfl⟩ := Language.mem_mul.1 hp
  obtain ⟨tb, htb, r2, hr2, rfl⟩ := Language.mem_mul.1 hr1
  obtain ⟨a2, ha2, r3, hr3, rfl⟩ := Language.mem_mul.1 hr2
  obtain ⟨g1, -, r4, hr4, rfl⟩ := Language.mem_mul.1 hr3
  obtain ⟨a3, ha3, r5, hr5, rfl⟩ := Language.mem_mul.1 hr4
  obtain ⟨g2, -, r6, hr6, rfl⟩ := Language.mem_mul.1 hr5
  obtain ⟨b1, hb1, r7, hr7, rfl⟩ := Language.mem_mul.1 hr6
  obtain ⟨bk, hbk, r8, hr8, rfl⟩ := Language.mem_mul.1 hr7
  obtain ⟨g3, -, a4, ha4, rfl⟩ := Language.mem_mul.1 hr8
  obtain ⟨L, rfl, hL⟩ := Language.mem_kstar.1 hbk
  refine ⟨tb, g1, g2, b1 :: L, g3, q, anyPlus_elim htb, by simp, ?_, ?_⟩
  · intro b hb
    rcases List.mem_cons.1 hb with rfl | hb
    · exact eventBlockL_sound hb1
    · exact eventBlockL_sound (hL b hb)
  · rw [eq_of_mem_litL ha1, eq_of_mem_litL ha2, eq_of_mem_litL ha3,
      eq_of_mem_litL ha4]
    simp [List.append_assoc]

/-- A format-valid text contains the closing schedule tag. -/
lemma schedC_infix_of_format_valid {s : List Char} (h : format_valid s) :
    "</schedule>".data <:+: s := by
  obtain ⟨tb, g1, g2, bs, g3, rest, -, -, -, hs⟩ := format_valid_structure h
  refine ⟨"<think>".data ++ tb ++ "</think>".data ++ g1 ++ "<schedule>".data ++
    g2 ++ List.flatten bs ++ g3, rest, ?_⟩
  rw [hs]; simp [List.append_assoc]

/-! ### Scorer helper lemmas -/

/-- Membership in the overlap-elimination set: exactly the members of
pairs `(m[j], m[k])`, `j < k`, satisfying the non-strict overlap test. -/
lemma mem_overlapping {m : List EvM} {v : EvM} :
    v ∈ overlapping m ↔
      ∃ a b, List.Sublist [a, b] m ∧ closedConfB a b = true ∧ (v = a ∨ v = b) := by
  induction m with
  | nil => simp [overlapping]
  | cons x rest ih =>
    simp only [overlapping, List.mem_append, List.mem_flatten, List.mem_map,
      List.mem_filter, ih]
    constructor
    · rintro (⟨l, ⟨b, ⟨hb, hconf⟩, rfl⟩, hv⟩ | ⟨a, b, hs, hconf, hv⟩)
      · exact ⟨x, b, List.cons_sublist_cons.2 (List.singleton_sublist.2 hb),
          hconf, by simpa using hv⟩
      · exact ⟨a, b, hs.cons x, hconf, hv⟩
    · rintro ⟨a, b, hs, hconf, hv⟩
      rcases List.sublist_cons_iff.1 hs with hs' | ⟨r, heq, hr⟩
      · exact Or.inr ⟨a, b, hs', hconf, hv⟩
      · rw [List.cons_eq_cons] at heq
        obtain ⟨hax, hrb⟩ := heq
        have hb : b ∈ rest := List.singleton_sublist.1 (hrb ▸ hr)
        subst hax
        exact Or.inl ⟨[a, b], ⟨b, ⟨hb, hconf⟩, rfl⟩, by simpa using hv⟩

/-- Any two distinct positions of the post-elimination list pass the
non-strict overlap test negatively. -/
lemma filter_not_overlapping_pairwise (m : List EvM) :
    (m.filter (fun ev => !decide (ev ∈ overlapping m))).Pairwise
      (fun a b => closedConfB a b = false) := by
  rw [List.pairwise_iff_forall_sublist]
  intro a b hab
  have hsub : List.Sublist [a, b] m := hab.trans (List.filter_sublist m)
  have ha : a ∈ m.filter (fun ev => !decide (ev ∈ overlapping m)) :=
    hab.subset (by simp)
  have ha' := (List.mem_filter.1 ha).2
  cases hcf : closedConfB a b with
  | false => rfl
  | true =>
    exfalso
    have : a ∈ overlapping m := mem_overlapping.2 ⟨a, b, hsub, hcf, Or.inl rfl⟩
    simp [this] at ha'

/-- Deduplication of a list extended by a fresh element. -/
lemma dedup_append_singleton {α : Type} [DecidableEq α] {l : List α} {e : α}
    (he : e ∉ l) : (l ++ [e]).dedup = l.dedup ++ [e] := by
  induction l with
  | nil => simp
  | cons x l ih =>
    have hxe : ¬ x = e := fun h => he (h ▸ List.mem_cons_self x l)
    have he' : e ∉ l := fun h => he (List.mem_cons_of_mem x h)
    by_cases hx : x ∈ l
    · rw [List.cons_append, List.dedup_cons_of_mem (by simp [hx]),
        List.dedup_cons_of_mem hx, ih he']
    · rw [List.cons_append, List.dedup_cons_of_not_mem (by simp [hx, hxe]),
        List.dedup_cons_of_not_mem hx, ih he', List.cons_append]

/-- A list with a duplicate strictly shrinks under deduplication. -/
lemma dedup_length_lt {α : Type} [DecidableEq α] {l : List α}
    (h : ¬ l.Nodup) : l.dedup.length < l.length := by
  rcases Nat.lt_or_ge l.dedup.length l.length with hlt | hge
  · exact hlt
  · exfalso
    have hs := List.dedup_sublist l
    have heq : l.dedup = l := hs.eq_of_length (Nat.le_antisymm hs.length_le hge)
    exact h (heq ▸ l.nodup_dedup)

/-- The chronological Boolean check agrees with adjacent-pairs
strict ordering of start times. -/
lemma sortedB_iff_chain :
    ∀ m : List EvM, sortedB m = true ↔ m.Chain' (fun a b => a.2.1 < b.2.1)
  | [] => by simp [sortedB]
  | [a] => by simp [sortedB]
  | a :: b :: rest => by
    rw [sortedB, List.chain'_cons, Bool.and_eq_true, decide_eq_true_eq,
      sortedB_iff_chain (b :: rest)]

/-- A digit character is not a colon. -/
lemma digit_ne_colon {c : Char} (h : isDigitC c = true) : ¬ c = ':' := by
  intro heq; subst heq; exact absurd h (by decide)

/-- Numeric range of a digit character. -/
lemma digit_bound {c : Char} (h : isDigitC c = true) : c.toNat - 48 ≤ 9 := by
  simp only [isDigitC, Bool.and_eq_true, decide_eq_true_eq] at h
  omega

/-- Minute value of a captured `\d{2}:\d{2}` string. -/
lemma time_to_minutes_pat {d1 d2 d3 d4 : Char} (h1 : isDigitC d1 = true)
    (h2 : isDigitC d2 = true) (h3 : isDigitC d3 = true) (h4 : isDigitC d4 = true) :
    time_to_minutes [d1, d2, ':', d3, d4] =
      ((10 * (d1.toNat - 48) + (d2.toNat - 48) : ℕ) : ℤ) * 60 +
        ((10 * (d3.toNat - 48) + (d4.toNat - 48) : ℕ) : ℤ) := by
  have hs : splitCol [d1, d2, ':', d3, d4] = [[d1, d2], [d3, d4]] := by
    simp [splitCol, digit_ne_colon h1, digit_ne_colon h2, digit_ne_colon h3,
      digit_ne_colon h4]
  rw [time_to_minutes, hs]
  simp [digitsVal, List.foldl]

/-! ## The claims -/

/-- C1, counterexample: the overlap-elimination step removes both of the
touching events `A(10:00-11:00)` and `B(11:00-12:00)` — both are placed in
the overlap set, no event survives, and the score drops to 0 — even
though their intervals do not intersect with positive measure.  This
falsifies both parts of the claim. -/
theorem c1_counterexample :
    (toMin touchA ∈ overlapping [toMin touchA, toMin touchB] ∧
     toMin touchB ∈ overlapping [toMin touchA, toMin touchB] ∧
     surviving [touchA, touchB] [touchA, touchB] = [] ∧
     ¬ strictConf (toMin touchA) (toMin touchB)) ∧
    scoreFromEvents [touchA, touchB] [touchA, touchB] [] 285 = 0 := by
  refine ⟨by decide, ?_⟩
  rw [scoreFromEvents, if_neg (by decide),
    show candidate_weighted_score [touchA, touchB] [touchA, touchB] [] = 0 from by decide]
  norm_num

/-- C1, amended: both members of a pair of retained events are removed iff
their intervals intersect as closed intervals — `a.start ≤ b.end` and
`a.end ≥ b.start` for the earlier-listed event `a` — so intervals that
merely touch at an endpoint do conflict. -/
theorem c1_overlap_rule_amended (m : List EvM) (v : EvM) :
    v ∈ overlapping m ↔
      ∃ a b, List.Sublist [a, b] m ∧ (a.2.1 ≤ b.2.2 ∧ a.2.2 ≥ b.2.1) ∧
        (v = a ∨ v = b) := by
  simp only [mem_overlapping, closedConfB, Bool.and_eq_true, decide_eq_true_eq]

/-- C2: a candidate containing an event absent from the reference list, or
retaining fewer than 2 distinct valid events after the membership filter,
receives score 0 regardless of its other events. -/
theorem c2_zero_on_hallucination (scheduled valid : List EvS)
    (priorities : List (List Char)) (opt : ℤ)
    (h : (∃ ev ∈ scheduled, ev ∉ valid) ∨
      (existing_events scheduled valid).length < 2) :
    scoreFromEvents scheduled valid priorities opt = 0 := by
  rw [scoreFromEvents, if_pos]
  rcases h with ⟨ev, hev, hnv⟩ | h2
  · left
    have h1 : (scheduled.filter (fun ev => decide (ev ∈ valid))).length
        < scheduled.length := by
      rw [List.length_filter_lt_length_iff_exists]
      exact ⟨ev, hev, by simpa using hnv⟩
    calc (existing_events scheduled valid).length
        ≤ (scheduled.filter (fun ev => decide (ev ∈ valid))).length :=
          (List.dedup_sublist _).length_le
      _ < scheduled.length := h1
  · right; exact h2

/-- C2, witness: a candidate naming the fabricated event `Z` next to the
valid event `B` scores 0. -/
theorem c2_witness :
    scoreFromEvents [fixB, ("Z".data, "01:00".data, "02:00".data)]
      fixRef fixPrio 285 = 0 :=
  c2_zero_on_hallucination _ _ _ _
    (Or.inl ⟨("Z".data, "01:00".data, "02:00".data), by decide, by decide⟩)

/-- C3: on the documented fixture (whose conflict-free optimum is indeed
285), the candidate `[B, C]` has weighted score `2*30 + 90 = 150`,
normalized reward `150/285 = 10/19` (about 0.526), and scaled score
`(150/285) * 70`. -/
theorem c3_fixture_scenario :
    trueMax fixRef fixPrio = 285 ∧
    candidate_weighted_score [fixB, fixC] fixRef fixPrio = 150 ∧
    (candidate_weighted_score [fixB, fixC] fixRef fixPrio : ℚ) / 285 = 10 / 19 ∧
    scoreFromEvents [fixB, fixC] fixRef fixPrio 285 = (150 / 285) * 70 := by
  have hw : candidate_weighted_score [fixB, fixC] fixRef fixPrio = 150 := by decide
  refine ⟨by decide, hw, ?_, ?_⟩
  · rw [hw]; norm_num
  · rw [scoreFromEvents, if_neg (by decide), hw]; norm_num

/-- C5, counterexample: the extractor accepts the time string `25:61`,
whose hour is not in 00-23 and whose minute is not in 00-59, and its
minute value 1561 is outside `[0, 1440)`. -/
theorem c5_counterexample :
    get_events badTimeBlock = [("A".data, "25:61".data, "26:00".data)] ∧
    time_to_minutes "25:61".data = 1561 ∧
    ¬ time_to_minutes "25:61".data < 1440 := by decide

/-- C5, amended: a time string is accepted by the extractor iff it is two
digits, a colon and two digits — with no range restriction on the hour or
minute values — and every accepted time converts to a minute count in
`[0, 6039]`, not necessarily below 1440. -/
theorem c5_time_acceptance_amended (t : List Char) :
    (TimePatP t ↔ takeTime t = some (t, [])) ∧
    (TimePatP t → 0 ≤ time_to_minutes t ∧ time_to_minutes t ≤ 6039) := by
  constructor
  · constructor
    · rintro ⟨d1, d2, d3, d4, h1, h2, h3, h4, rfl⟩
      simp [takeTime, h1, h2, h3, h4]
    · intro h
      rcases t with _ | ⟨d1, _ | ⟨d2, _ | ⟨c, _ | ⟨d3, _ | ⟨d4, rest⟩⟩⟩⟩⟩ <;>
        simp only [takeTime] at h <;>
        try exact Option.noConfusion h
      split at h
      · rename_i hcond
        simp only [Bool.and_eq_true, decide_eq_true_eq] at hcond
        obtain ⟨⟨⟨⟨hd1, hd2⟩, hc⟩, hd3⟩, hd4⟩ := hcond
        subst hc
        simp only [Option.some.injEq, Prod.mk.injEq] at h
        exact ⟨d1, d2, d3, d4, hd1, hd2, hd3, hd4, by rw [h.1]⟩
      · exact Option.noConfusion h
  · rintro ⟨d1, d2, d3, d4, h1, h2, h3, h4, rfl⟩
    rw [time_to_minutes_pat h1 h2 h3 h4]
    have b1 := digit_bound h1
    have b2 := digit_bound h2
    have b3 := digit_bound h3
    have b4 := digit_bound h4
    constructor <;> [positivity; skip] <;> push_cast <;> nlinarith [b1, b2, b3, b4]

/-- C5, witness: the well-formed time `12:34` is accepted and its minute
value lies in `[0, 6039]`. -/
theorem c5_witness :
    (TimePatP "12:34".data ↔ takeTime "12:34".data = some ("12:34".data, [])) ∧
    (0 ≤ time_to_minutes "12:34".data ∧ time_to_minutes "12:34".data ≤ 6039) :=
  ⟨(c5_time_acceptance_amended "12:34".data).1,
   (c5_time_acceptance_amended "12:34".data).2
     ⟨'1', '2', '3', '4', by decide, by decide, by decide, by decide, rfl⟩⟩

/-- C7: the chronological-order signal is positive iff at least two events
were extracted and their start times are strictly increasing in extraction
order; an extraction of fewer than two events scores 0. -/
theorem c7_sorted_signal_iff (content : List Char) :
    (0 < sorted_events_reward content ↔
      2 ≤ (get_events content).length ∧
      ((get_events content).map toMin).Chain' (fun a b => a.2.1 < b.2.1)) ∧
    ((get_events content).length < 2 → sorted_events_reward content = 0) := by
  rw [sorted_events_reward]
  by_cases h1 : (get_events content).length < 2
  · rw [if_pos h1]
    constructor
    · simp only [lt_self_iff_false, false_iff]
      rintro ⟨h2, -⟩; omega
    · intro; rfl
  · rw [if_neg h1]
    refine ⟨?_, fun h => absurd h h1⟩
    by_cases h2 : sortedB ((get_events content).map toMin) = true
    · rw [if_pos h2]
      simp only [sortedB_iff_chain] at h2
      norm_num [h2]
      omega
    · rw [if_neg h2]
      simp only [sortedB_iff_chain] at h2
      simp [h2]

/-- C7, witness: the empty text extracts no events and the signal is 0. -/
theorem c7_witness : sorted_events_reward [] = 0 :=
  (c7_sorted_signal_iff []).2 (by decide)

/-- C9: a candidate listing the same valid reference event twice is scored
0 even when it contains at least 2 distinct valid events and no fabricated
ones, because the membership filter collapses duplicates into a set and
the retained count drops below the raw extracted count. -/
theorem c9_duplicate_zero (scheduled valid : List EvS)
    (priorities : List (List Char)) (opt : ℤ)
    (hdup : ¬ scheduled.Nodup) (hall : ∀ ev ∈ scheduled, ev ∈ valid)
    (_htwo : 2 ≤ (existing_events scheduled valid).length) :
    scoreFromEvents scheduled valid priorities opt = 0 := by
  rw [scoreFromEvents, if_pos]
  left
  have hfil : scheduled.filter (fun ev => decide (ev ∈ valid)) = scheduled :=
    List.filter_eq_self.2 (fun a ha => by simpa using hall a ha)
  rw [existing_events, hfil]
  exact dedup_length_lt hdup

/-- C9, witness: the duplicate-containing candidate `[B, C, B]` over the
fixture scores 0 though `B` and `C` are both valid and distinct. -/
theorem c9_witness :
    scoreFromEvents [fixB, fixC, fixB] fixRef fixPrio 285 = 0 :=
  c9_duplicate_zero _ _ _ _ (by decide) (by decide) (by decide)

/-- C4: the format check succeeds only on text that starts with a nonempty
think section followed by a schedule section containing one or more
well-formed event blocks — each with a name, a start time and an end time
in that order — and a closing schedule tag; in particular text with zero
event blocks, or with no closing schedule tag, is format-invalid. -/
theorem c4_format_validator_only_if (s : List Char) (h : format_valid s) :
    (∃ tb g1 g2 bs g3 rest, tb ≠ [] ∧ bs ≠ [] ∧ (∀ b ∈ bs, EventBlockP b) ∧
      s = "<think>".data ++ (tb ++ ("</think>".data ++ (g1 ++ ("<schedule>".data ++
        (g2 ++ (List.flatten bs ++ (g3 ++ ("</schedule>".data ++ rest))))))))) ∧
    "</schedule>".data <:+: s :=
  ⟨format_valid_structure h, schedC_infix_of_format_valid h⟩

set_option maxRecDepth 20000 in
/-- C4, witness: a fully well-formed candidate text is format-valid and
decomposes as stated. -/
theorem c4_witness :
    format_valid wit4 ∧
    ((∃ tb g1 g2 bs g3 rest, tb ≠ [] ∧ bs ≠ [] ∧ (∀ b ∈ bs, EventBlockP b) ∧
      wit4 = "<think>".data ++ (tb ++ ("</think>".data ++ (g1 ++ ("<schedule>".data ++
        (g2 ++ (List.flatten bs ++ (g3 ++ ("</schedule>".data ++ rest))))))))) ∧
    "</schedule>".data <:+: wit4) := by
  have hB : wit4Block ∈ eventBlockL := by
    apply eventBlockL_intro
    exact ⟨[], "A".data, [], "01:00".data, [], "02:00".data, [], by decide,
      ⟨'0', '1', '0', '0', by decide, by decide, by decide, by decide, rfl⟩,
      ⟨'0', '2', '0', '0', by decide, by decide, by decide, by decide, rfl⟩, rfl⟩
  have hW : format_valid wit4 := by
    refine ⟨wit4, [], by simp, ?_⟩
    have he : wit4 = "<think>".data ++ ("x".data ++ ("</think>".data ++ ([] ++
        ("<schedule>".data ++ ([] ++ (wit4Block ++ ([] ++
        ([] ++ "</schedule>".data)))))))) := by decide
    rw [he]
    exact append_mem_mul mem_litL (append_mem_mul (anyPlus_intro (by decide))
      (append_mem_mul mem_litL (append_mem_mul (Set.mem_univ [])
      (append_mem_mul mem_litL (append_mem_mul (Set.mem_univ [])
      (append_mem_mul hB (append_mem_mul (Language.nil_mem_kstar eventBlockL)
      (append_mem_mul (Set.mem_univ []) mem_litL))))))))
  exact ⟨hW, c4_format_validator_only_if wit4 hW⟩

set_option maxRecDepth 100000 in
/-- C6: the scorer yields a result on malformed input: Scenario 2's
candidate lacks the closing schedule tag (so it is format-invalid) and
contains a malformed middle block, yet the extractor returns the two
well-formed events in order and the score is computed from them. -/
theorem c6_scorer_total_on_malformed :
    ¬ format_valid scen2 ∧
    get_events scen2 = [("A".data, "01:00".data, "02:00".data),
      ("C".data, "03:00".data, "04:00".data)] ∧
    score_reward scen2 scen2Ref [] 120 = (120 / 120) * 70 := by
  have hg : get_events scen2 = [("A".data, "01:00".data, "02:00".data),
      ("C".data, "03:00".data, "04:00".data)] := by decide
  refine ⟨?_, hg, ?_⟩
  · intro h
    exact absurd (schedC_infix_of_format_valid h) (by decide)
  · rw [score_reward, hg, scoreFromEvents, if_neg (by decide),
      show candidate_weighted_score [("A".data, "01:00".data, "02:00".data),
        ("C".data, "03:00".data, "04:00".data)] scen2Ref [] = 120 from by decide]
    norm_num

/-! ### Helper lemmas for monotonicity and boundedness -/

/-- The overlap test is symmetric. -/
lemma closedConfB_symm (a b : EvM) : closedConfB a b = closedConfB b a := by
  simp only [closedConfB]
  rw [Bool.and_comm]

/-- Positive-measure intersection implies the code's non-strict test. -/
lemma closedConfB_of_strict {a b : EvM} (h : strictConf a b) :
    closedConfB a b = true := by
  obtain ⟨h1, h2⟩ := h
  simp only [closedConfB, Bool.and_eq_true, decide_eq_true_eq]
  omega

/-- Weights of reference events with positive duration are nonnegative. -/
lemma weight_nonneg {valid : List EvS} {prios : List (List Char)} {ev : EvS}
    (hdur : ∀ x ∈ valid, time_to_minutes x.2.1 < time_to_minutes x.2.2)
    (h : ev ∈ valid) : 0 ≤ weight prios (toMin ev) := by
  have := hdur ev h
  rw [weight]
  dsimp only [toMin]
  split <;> omega

/-- Retained events come from the reference list. -/
lemma mem_valid_of_mem_existing {scheduled valid : List EvS} {ev : EvS}
    (h : ev ∈ existing_events scheduled valid) : ev ∈ valid := by
  rw [existing_events, List.mem_dedup, List.mem_filter] at h
  simpa using h.2

/-- The weighted sum is nonnegative when reference durations are positive. -/
lemma candidate_weighted_score_nonneg (scheduled valid : List EvS)
    (prios : List (List Char))
    (hdur : ∀ x ∈ valid, time_to_minutes x.2.1 < time_to_minutes x.2.2) :
    0 ≤ candidate_weighted_score scheduled valid prios := by
  apply List.sum_nonneg
  intro x hx
  obtain ⟨m, hm, rfl⟩ := List.mem_map.1 hx
  rw [surviving] at hm
  have hm2 : m ∈ existing_events_minutes scheduled valid := (List.mem_filter.1 hm).1
  rw [existing_events_minutes] at hm2
  obtain ⟨ev, hev, rfl⟩ := List.mem_map.1 hm2
  exact weight_nonneg hdur (mem_valid_of_mem_existing hev)

/-- The scaled reward is nonnegative when reference durations are positive
and the supplied optimum is positive. -/
lemma scoreFromEvents_nonneg (scheduled valid : List EvS)
    (prios : List (List Char)) (opt : ℤ)
    (hdur : ∀ x ∈ valid, time_to_minutes x.2.1 < time_to_minutes x.2.2)
    (hopt : 0 < opt) : 0 ≤ scoreFromEvents scheduled valid prios opt := by
  rw [scoreFromEvents]
  split
  · exact le_refl 0
  · have h1 : (0 : ℚ) ≤ (candidate_weighted_score scheduled valid prios : ℚ) := by
      exact_mod_cast candidate_weighted_score_nonneg _ _ _ hdur
    have h2 : (0 : ℚ) < (opt : ℚ) := by exact_mod_cast hopt
    exact mul_nonneg (div_nonneg h1 (le_of_lt h2)) (by norm_num)

/-- A member of a list is at most its `foldr max`. -/
lemma le_foldr_max {l : List ℤ} {a b : ℤ} (h : a ∈ l) : a ≤ l.foldr max b := by
  induction l with
  | nil => cases h
  | cons x xs ih =>
    rcases List.mem_cons.1 h with rfl | h'
    · exact le_max_left _ _
    · exact le_trans (ih h') (le_max_right _ _)

/-- The surviving events form a conflict-free duplicate-free selection from
the reference list, so their weighted sum is at most the exhaustive
optimum. -/
lemma candidate_le_trueMax (scheduled valid : List EvS)
    (prios : List (List Char)) :
    candidate_weighted_score scheduled valid prios ≤ trueMax valid prios := by
  have hsurv : surviving scheduled valid
      = ((existing_events scheduled valid).filter
          (fun ev => !decide (toMin ev ∈
            overlapping (existing_events_minutes scheduled valid)))).map toMin := by
    rw [surviving, existing_events_minutes, List.filter_map]
    rfl
  set S := (existing_events scheduled valid).filter
    (fun ev => !decide (toMin ev ∈
      overlapping (existing_events_minutes scheduled valid))) with hS
  have hnodupE : (existing_events scheduled valid).Nodup := by
    rw [existing_events]; exact List.nodup_dedup _
  have hnodup : S.Nodup := (List.filter_sublist _).nodup hnodupE
  have hsubset : ∀ x ∈ S, x ∈ valid := fun x hx =>
    mem_valid_of_mem_existing (List.mem_filter.1 hx).1
  have hpair : S.Pairwise (fun a b => ¬ strictConf (toMin a) (toMin b)) := by
    have h1 : (surviving scheduled valid).Pairwise
        (fun a b => closedConfB a b = false) := by
      rw [surviving]
      exact filter_not_overlapping_pairwise _
    rw [hsurv, List.pairwise_map] at h1
    exact h1.imp fun hcf hs => by
      rw [closedConfB_of_strict hs] at hcf; exact Bool.noConfusion hcf
  obtain ⟨l', hperm, hsub⟩ := List.Nodup.subperm hnodup hsubset
  have hl'pair : l'.Pairwise (fun a b => ¬ strictConf (toMin a) (toMin b)) := by
    refine (List.Perm.pairwise_iff ?_ hperm).2 hpair
    intro x y hxy hs
    exact hxy ⟨hs.2, hs.1⟩
  have hsum : candidate_weighted_score scheduled valid prios
      = (l'.map (fun ev => weight prios (toMin ev))).sum := by
    have hps := (hperm.map (fun ev => weight prios (toMin ev))).sum_eq
    rw [candidate_weighted_score, hsurv, List.map_map, hps]
    rfl
  have hmem : (l'.map (fun ev => weight prios (toMin ev))).sum ∈
      ((valid.sublists.filter
        (fun l => decide (l.Pairwise
          (fun a b => ¬ strictConf (toMin a) (toMin b))))).map
        (fun l => ((l.map (fun ev => weight prios (toMin ev))).sum))) := by
    refine List.mem_map.2 ⟨l', List.mem_filter.2 ⟨List.mem_sublists.2 hsub, ?_⟩, rfl⟩
    exact decide_eq_true hl'pair
  rw [hsum, trueMax]
  exact le_foldr_max hmem

/-- Membership filtering of a candidate extended by a fresh valid event. -/
lemma existing_events_append {scheduled valid : List EvS} {e : EvS}
    (hall : ∀ ev ∈ scheduled, ev ∈ valid) (hnodup : scheduled.Nodup)
    (he : e ∈ valid) (hnew : e ∉ scheduled) :
    existing_events (scheduled ++ [e]) valid = scheduled ++ [e] ∧
    existing_events scheduled valid = scheduled := by
  have hfe : scheduled.filter (fun ev => decide (ev ∈ valid)) = scheduled :=
    List.filter_eq_self.2 fun a ha => by simpa using hall a ha
  have h2 : existing_events scheduled valid = scheduled := by
    rw [existing_events, hfe, List.dedup_eq_self.2 hnodup]
  refine ⟨?_, h2⟩
  rw [existing_events, List.filter_append, hfe]
  have hone : List.filter (fun ev => decide (ev ∈ valid)) [e] = [e] := by simp [he]
  rw [hone, dedup_append_singleton hnew, List.dedup_eq_self.2 hnodup]

/-- Overlap elimination after appending a fresh valid event that does not
pass the overlap test against any candidate event: the new event survives
and the other survivors are unchanged. -/
lemma surviving_append {scheduled valid : List EvS} {e : EvS}
    (hdur : ∀ x ∈ valid, time_to_minutes x.2.1 < time_to_minutes x.2.2)
    (hall : ∀ ev ∈ scheduled, ev ∈ valid) (hnodup : scheduled.Nodup)
    (he : e ∈ valid) (hnew : e ∉ scheduled)
    (hnc : ∀ b ∈ scheduled, closedConfB (toMin e) (toMin b) = false) :
    surviving (scheduled ++ [e]) valid = surviving scheduled valid ++ [toMin e] := by
  obtain ⟨hE', hE⟩ := existing_events_append hall hnodup he hnew
  have hM' : existing_events_minutes (scheduled ++ [e]) valid
      = scheduled.map toMin ++ [toMin e] := by
    rw [existing_events_minutes, hE', List.map_append]
    rfl
  have hM : existing_events_minutes scheduled valid = scheduled.map toMin := by
    rw [existing_events_minutes, hE]
  have hemM : toMin e ∉ scheduled.map toMin := by
    intro hmem
    obtain ⟨b, hb, heq⟩ := List.mem_map.1 hmem
    have h1 := hnc b hb
    rw [heq] at h1
    have hd := hdur e he
    have htrue : closedConfB (toMin e) (toMin e) = true := by
      simp only [closedConfB, toMin, Bool.and_eq_true, decide_eq_true_eq]
      omega
    rw [htrue] at h1
    exact Bool.noConfusion h1
  have hOv : ∀ v, v ∈ overlapping (scheduled.map toMin ++ [toMin e])
      ↔ v ∈ overlapping (scheduled.map toMin) := by
    intro v
    rw [mem_overlapping, mem_overlapping]
    constructor
    · rintro ⟨a, b, hs, hconf, hv⟩
      obtain ⟨u, w, huw, hu, hw⟩ := List.sublist_append_iff.1 hs
      rcases List.sublist_singleton.1 hw with rfl | rfl
      · rw [List.append_nil] at huw
        exact ⟨a, b, huw ▸ hu, hconf, hv⟩
      · rcases u with _ | ⟨x, _ | ⟨y, u'⟩⟩
        · exact absurd huw (by simp)
        · have hax : a = x ∧ b = toMin e := by
            rw [List.cons_append, List.nil_append] at huw
            rw [List.cons_eq_cons] at huw
            refine ⟨huw.1, ?_⟩
            have := huw.2
            rw [List.cons_eq_cons] at this
            exact this.1
          obtain ⟨rfl, rfl⟩ := hax
          exfalso
          have hmm : a ∈ scheduled.map toMin := hu.subset (by simp)
          obtain ⟨b', hb', rfl⟩ := List.mem_map.1 hmm
          have := hnc b' hb'
          rw [closedConfB_symm] at this
          rw [this] at hconf
          exact Bool.noConfusion hconf
        · exfalso
          have := congrArg List.length huw
          simp at this
    · rintro ⟨a, b, hs, hconf, hv⟩
      exact ⟨a, b, hs.trans (List.sublist_append_left _ _), hconf, hv⟩
  have hemOv : toMin e ∉ overlapping (scheduled.map toMin ++ [toMin e]) := by
    intro h
    obtain ⟨a, b, hs, -, hv⟩ := mem_overlapping.1 ((hOv _).1 h)
    apply hemM
    rcases hv with rfl | rfl
    · exact hs.subset (by simp)
    · exact hs.subset (by simp)
  rw [surviving, surviving, hM', hM, List.filter_append]
  congr 1
  · apply List.filter_congr
    intro x hx
    exact congrArg Bool.not (decide_eq_decide.2 (hOv x))
  · simp [hemOv]

/-- C8, counterexample: event `C(02:00-03:00)` of the reference set touches
`A(01:00-02:00)` and `B(03:00-04:00)` only at endpoints (no positive-measure
intersection) and is absent from the candidate `[A, B]`, yet appending it
drops the candidate weighted score from 120 to 0 — the elimination step
removes all three events. -/
theorem c8_counterexample :
    monoC ∈ monoRef ∧ monoC ∉ [monoA, monoB] ∧
    ¬ strictConf (toMin monoC) (toMin monoA) ∧
    ¬ strictConf (toMin monoC) (toMin monoB) ∧
    scoreFromEvents [monoA, monoB] monoRef [] 240 = (120 / 240) * 70 ∧
    scoreFromEvents [monoA, monoB, monoC] monoRef [] 240 = 0 ∧
    ¬ (scoreFromEvents [monoA, monoB] monoRef [] 240 ≤
        scoreFromEvents [monoA, monoB, monoC] monoRef [] 240) := by
  have hA : scoreFromEvents [monoA, monoB] monoRef [] 240 = (120 / 240) * 70 := by
    rw [scoreFromEvents, if_neg (by decide),
      show candidate_weighted_score [monoA, monoB] monoRef [] = 120 from by decide]
    norm_num
  have hB : scoreFromEvents [monoA, monoB, monoC] monoRef [] 240 = 0 := by
    rw [scoreFromEvents, if_neg (by decide),
      show candidate_weighted_score [monoA, monoB, monoC] monoRef [] = 0 from by decide]
    norm_num
  refine ⟨by decide, by decide, by decide, by decide, hA, hB, ?_⟩
  rw [hA, hB]
  norm_num

/-- C8, amended: appending a reference event with positive-duration
reference data that is new to the candidate and does not satisfy the
code's non-strict overlap test (`e.start ≤ b.end` and `e.end ≥ b.start`)
against any candidate event never decreases the score; events that merely
touch a candidate event are excluded, since the code treats them as
conflicting. -/
theorem c8_monotonicity_amended (scheduled valid : List EvS)
    (priorities : List (List Char)) (opt : ℤ) (e : EvS)
    (hdur : ∀ x ∈ valid, time_to_minutes x.2.1 < time_to_minutes x.2.2)
    (hopt : 0 < opt) (he : e ∈ valid) (hnew : e ∉ scheduled)
    (hnc : ∀ b ∈ scheduled, closedConfB (toMin e) (toMin b) = false) :
    scoreFromEvents scheduled valid priorities opt ≤
      scoreFromEvents (scheduled ++ [e]) valid priorities opt := by
  by_cases hdeg : (existing_events scheduled valid).length < scheduled.length
      ∨ (existing_events scheduled valid).length < 2
  · have h0 : scoreFromEvents scheduled valid priorities opt = 0 := by
      rw [scoreFromEvents, if_pos hdeg]
    rw [h0]
    exact scoreFromEvents_nonneg _ _ _ _ hdur hopt
  · push_neg at hdeg
    obtain ⟨h1, h2⟩ := hdeg
    have hEsub : List.Sublist (existing_events scheduled valid)
        (scheduled.filter (fun ev => decide (ev ∈ valid))) := by
      rw [existing_events]; exact List.dedup_sublist _
    have hFsub : List.Sublist (scheduled.filter (fun ev => decide (ev ∈ valid)))
        scheduled := List.filter_sublist _
    have hElen : (existing_events scheduled valid).length = scheduled.length :=
      le_antisymm ((hEsub.trans hFsub).length_le) h1
    have hFlen : (scheduled.filter (fun ev => decide (ev ∈ valid))).length
        = scheduled.length :=
      le_antisymm hFsub.length_le (hElen ▸ hEsub.length_le)
    have hF : scheduled.filter (fun ev => decide (ev ∈ valid)) = scheduled :=
      hFsub.eq_of_length hFlen
    have hall : ∀ ev ∈ scheduled, ev ∈ valid := fun ev hev => by
      simpa using List.filter_eq_self.1 hF ev hev
    have hnodup : scheduled.Nodup := by
      have hEF : existing_events scheduled valid
          = scheduled.filter (fun ev => decide (ev ∈ valid)) :=
        hEsub.eq_of_length (by rw [hElen, hFlen])
      have hds : scheduled.dedup = scheduled := by
        have := hEF
        rw [existing_events, hF] at this
        rw [this]
      exact List.dedup_eq_self.1 hds
    obtain ⟨hE', hE⟩ := existing_events_append hall hnodup he hnew
    have hsurv := surviving_append hdur hall hnodup he hnew hnc
    have hcand : candidate_weighted_score (scheduled ++ [e]) valid priorities
        = candidate_weighted_score scheduled valid priorities
          + weight priorities (toMin e) := by
      rw [candidate_weighted_score, candidate_weighted_score, hsurv,
        List.map_append, List.sum_append]
      simp
    have hA : scoreFromEvents scheduled valid priorities opt
        = (candidate_weighted_score scheduled valid priorities : ℚ)
          / (opt : ℚ) * 70 := by
      rw [scoreFromEvents, if_neg (by omega)]
    have hB : scoreFromEvents (scheduled ++ [e]) valid priorities opt
        = (candidate_weighted_score (scheduled ++ [e]) valid priorities : ℚ)
          / (opt : ℚ) * 70 := by
      rw [scoreFromEvents, hE', if_neg (by simp; omega)]
    rw [hA, hB, hcand]
    have hw : 0 ≤ weight priorities (toMin e) := weight_nonneg hdur he
    have hoq : (0 : ℚ) < (opt : ℚ) := by exact_mod_cast hopt
    have hle : (candidate_weighted_score scheduled valid priorities : ℚ)
        ≤ ((candidate_weighted_score scheduled valid priorities
            + weight priorities (toMin e) : ℤ) : ℚ) := by
      push_cast
      linarith [show (0 : ℚ) ≤ (weight priorities (toMin e) : ℚ) from by
        exact_mod_cast hw]
    exact mul_le_mul_of_nonneg_right ((div_le_div_iff_of_pos_right hoq).2 hle) (by norm_num)

/-- C8, witness: appending the separated reference event `D(05:00-06:00)`
to the candidate `[A, B]` does not decrease the score. -/
theorem c8_witness :
    scoreFromEvents [monoA, monoB] monoRef [] 240 ≤
      scoreFromEvents ([monoA, monoB] ++ [monoD]) monoRef [] 240 :=
  c8_monotonicity_amended [monoA, monoB] monoRef [] 240 monoD
    (by decide) (by decide) (by decide) (by decide) (by decide)

/-- C10: when the supplied optimum is the true maximum weight of a
conflict-free subset of the reference set (and the reference data is
well-formed: positive optimum, positive durations), the returned scaled
reward lies in `[0, 70]` — the normalized reward never exceeds 1. -/
theorem c10_normalized_reward_bounded (scheduled valid : List EvS)
    (priorities : List (List Char)) (opt : ℤ)
    (hdur : ∀ x ∈ valid, time_to_minutes x.2.1 < time_to_minutes x.2.2)
    (hopt : opt = trueMax valid priorities) (hpos : 0 < opt) :
    0 ≤ scoreFromEvents scheduled valid priorities opt ∧
      scoreFromEvents scheduled valid priorities opt ≤ 70 := by
  refine ⟨scoreFromEvents_nonneg _ _ _ _ hdur hpos, ?_⟩
  rw [scoreFromEvents]
  split
  · norm_num
  · have hle : candidate_weighted_score scheduled valid priorities ≤ opt := by
      rw [hopt]
      exact candidate_le_trueMax _ _ _
    have hoq : (0 : ℚ) < (opt : ℚ) := by exact_mod_cast hpos
    have hleq : (candidate_weighted_score scheduled valid priorities : ℚ)
        ≤ (opt : ℚ) := by exact_mod_cast hle
    calc (candidate_weighted_score scheduled valid priorities : ℚ)
          / (opt : ℚ) * 70
        ≤ (opt : ℚ) / (opt : ℚ) * 70 := by
          exact mul_le_mul_of_nonneg_right ((div_le_div_iff_of_pos_right hoq).2 hleq)
            (by norm_num)
      _ = 70 := by rw [div_self (ne_of_gt hoq), one_mul]

/-- C10, witness: on the fixture (whose true optimum is 285) the candidate
`[B, C]` yields a reward within `[0, 70]`. -/
theorem c10_witness :
    0 ≤ scoreFromEvents [fixB, fixC] fixRef fixPrio 285 ∧
      scoreFromEvents [fixB, fixC] fixRef fixPrio 285 ≤ 70 :=
  c10_normalized_reward_bounded [fixB, fixC] fixRef fixPrio 285
    (by decide) (by decide) (by decide)

end Planday
